import Mathlib

/-!
Shallow embedding of the Torch-TensorRT runtime engine lifecycle
(`core/runtime/TRTEngine.cpp`, `core/runtime/runtime.h`): serialized-record
decoding, engine construction, binding-name parsing, re-serialization, the
copy-assignment operator, and the device-compatibility resolver (the latter,
together with the device-descriptor string codec, is declared in
`runtime.h` but implemented outside the provided sources, so it is modelled
from the specification).
-/

namespace TRTRuntime

/-- Device kind from the spec data model: general purpose vs fixed function
accelerator (GPU vs DLA in the source). -/
inductive DeviceKind where
  | GENERAL
  | FIXED_FUNCTION
deriving DecidableEq, Repr

/-- Modelled from the spec: DeviceDescriptor value type of section 3 with
`logical_id`, `physical_id`, `kind` and a numerically comparable
`compute_signature` (the implementation `RTDevice` is not under the provided
sources). -/
structure DeviceDescriptor where
  logical_id : Int
  physical_id : Int
  kind : DeviceKind
  compute_signature : Nat
deriving DecidableEq, Repr

/-- Modelled from the spec: the relaxed cross-kind rule of resolver step 2;
with `hardware_compatible` any kind is admissible, otherwise kinds must
match exactly. -/
def kindCompatible (hardware_compatible : Bool) (a b : DeviceKind) : Bool :=
  decide (a = b) || hardware_compatible

/-- Modelled from the spec: a registry entry is a candidate for `target`
when its kind is compatible and its compute signature is at least the
signature of the target (resolver steps 2 and 3). -/
def isCandidate (hardware_compatible : Bool) (target d : DeviceDescriptor) : Bool :=
  kindCompatible hardware_compatible target.kind d.kind
    && decide (target.compute_signature ≤ d.compute_signature)

/-- `d` is strictly preferred to `b`: higher compute signature, or equal
signature and lower logical id (the deterministic tie-break of the spec). -/
def beats (d b : DeviceDescriptor) : Bool :=
  decide (b.compute_signature < d.compute_signature)
    || (decide (d.compute_signature = b.compute_signature)
        && decide (d.logical_id < b.logical_id))

/-- Modelled from the spec: select from the candidate list the descriptor
with the numerically highest compute signature, ties broken by lowest
logical id; earlier registry entries win exact ties deterministically. -/
def pickBest : List DeviceDescriptor → Option DeviceDescriptor
  | [] => none
  | d :: ds =>
    match pickBest ds with
    | none => some d
    | some b => if beats b d then some b else some d

/-- Modelled from the spec: `get_most_compatible_device` (declared in
`runtime.h`, implemented outside the provided sources), following the four
resolver steps of section 4.2: prefer a supplied current device when it is a
registered compatible candidate of sufficient signature, otherwise pick the
best candidate from the registry, and return none when no candidate exists. -/
def get_most_compatible_device (registry : List DeviceDescriptor)
    (target : DeviceDescriptor) (curr : Option DeviceDescriptor)
    (hardware_compatible : Bool) : Option DeviceDescriptor :=
  match curr with
  | some g =>
    if g ∈ registry ∧ isCandidate hardware_compatible target g = true then some g
    else pickBest (registry.filter (isCandidate hardware_compatible target))
  | none => pickBest (registry.filter (isCandidate hardware_compatible target))

theorem pickBest_eq_none {l : List DeviceDescriptor} :
    pickBest l = none ↔ l = [] := by
  cases l with
  | nil => simp [pickBest]
  | cons d ds =>
    simp only [pickBest]
    constructor
    · intro h
      cases hds : pickBest ds with
      | none => rw [hds] at h; simp at h
      | some b => rw [hds] at h; dsimp at h; split at h <;> simp_all
    · intro h; exact absurd h (by simp)

theorem pickBest_mem {l : List DeviceDescriptor} {m : DeviceDescriptor}
    (h : pickBest l = some m) : m ∈ l := by
  induction l generalizing m with
  | nil => simp [pickBest] at h
  | cons d ds ih =>
    simp only [pickBest] at h
    cases hds : pickBest ds with
    | none => rw [hds] at h; simp at h; simp [h]
    | some b =>
      rw [hds] at h; dsimp at h
      split at h
      · simp at h; subst h
        exact List.mem_cons_of_mem d (ih hds)
      · simp at h; simp [h]

theorem beats_irrefl (d : DeviceDescriptor) : beats d d = false := by
  simp [beats]

theorem beats_asymm {a b : DeviceDescriptor} (h : beats a b = true) :
    beats b a = false := by
  simp only [beats, Bool.or_eq_true, Bool.and_eq_true, decide_eq_true_eq] at h ⊢
  simp only [Bool.or_eq_false_iff, Bool.and_eq_false_iff,
    decide_eq_false_iff_not, not_lt]
  rcases h with h | ⟨h1, h2⟩
  · exact ⟨le_of_lt h, Or.inl (by omega)⟩
  · exact ⟨le_of_eq h1.symm, Or.inr (by omega)⟩

theorem not_beats_trans {a b c : DeviceDescriptor}
    (hab : beats a b = false) (hbc : beats b c = false) : beats a c = false := by
  simp only [beats, Bool.or_eq_false_iff, Bool.and_eq_false_iff,
    decide_eq_false_iff_not, not_lt] at hab hbc ⊢
  obtain ⟨h1, h2⟩ := hab
  obtain ⟨h3, h4⟩ := hbc
  refine ⟨le_trans h1 h3, ?_⟩
  rcases h2 with h2 | h2
  · left; omega
  · rcases h4 with h4 | h4
    · left; omega
    · right; omega

theorem pickBest_not_beats {l : List DeviceDescriptor} {m : DeviceDescriptor}
    (h : pickBest l = some m) : ∀ x ∈ l, beats x m = false := by
  induction l generalizing m with
  | nil => simp [pickBest] at h
  | cons d ds ih =>
    simp only [pickBest] at h
    intro x hx
    cases hds : pickBest ds with
    | none =>
      rw [hds] at h; simp at h
      have hnil : ds = [] := pickBest_eq_none.mp hds
      subst hnil
      simp at hx
      subst hx; subst h; exact beats_irrefl x
    | some b =>
      rw [hds] at h; dsimp at h
      split at h
      · next hbd =>
        simp at h; subst h
        rcases List.mem_cons.mp hx with hx | hx
        · subst hx; exact beats_asymm hbd
        · exact ih hds x hx
      · next hbd =>
        simp at h; subst h
        rcases List.mem_cons.mp hx with hx | hx
        · subst hx; exact beats_irrefl x
        · have hxb := ih hds x hx
          have hbm : beats b d = false := by
            simpa using hbd
          exact not_beats_trans hxb hbm

theorem pickBest_filter_ge {l : List DeviceDescriptor} {m : DeviceDescriptor}
    (h : pickBest l = some m) :
    pickBest (l.filter
      (fun d => decide (m.compute_signature ≤ d.compute_signature))) = some m := by
  induction l generalizing m with
  | nil => simp [pickBest] at h
  | cons d ds ih =>
    simp only [pickBest] at h
    cases hds : pickBest ds with
    | none =>
      rw [hds] at h; simp at h
      have hnil : ds = [] := pickBest_eq_none.mp hds
      subst hnil
      rw [List.filter_cons]
      simp [h, pickBest]
    | some b =>
      rw [hds] at h; dsimp at h
      split at h
      · next hbd =>
        simp at h; subst h
        have hIH := ih hds
        simp only [beats, Bool.or_eq_true, Bool.and_eq_true, decide_eq_true_eq] at hbd
        rcases hbd with hlt | ⟨heq, hid⟩
        · have hdrop : decide (b.compute_signature ≤ d.compute_signature) = false := by
            simp; omega
          rw [List.filter_cons, hdrop]
          simpa using hIH
        · have hkeep : decide (b.compute_signature ≤ d.compute_signature) = true := by
            simp; omega
          rw [List.filter_cons, hkeep]
          simp only [if_true]
          simp only [pickBest, hIH]
          have hbeats : beats b d = true := by
            simp [beats]; omega
          simp [hbeats]
      · next hbd =>
        simp at h; subst h
        have hkeep : decide (d.compute_signature ≤ d.compute_signature) = true := by simp
        rw [List.filter_cons, hkeep]
        simp only [if_true]
        simp only [pickBest]
        cases hf : pickBest (ds.filter
            (fun x => decide (d.compute_signature ≤ x.compute_signature))) with
        | none => rfl
        | some b2 =>
          have hb2mem := pickBest_mem hf
          have hb2ds : b2 ∈ ds := List.mem_of_mem_filter hb2mem
          have hb2b : beats b2 b = false := pickBest_not_beats hds b2 hb2ds
          have hbm : beats b d = false := by simpa using hbd
          have hfin : beats b2 d = false := not_beats_trans hb2b hbm
          simp [hfin]

theorem gmcd_signature_ge {registry : List DeviceDescriptor}
    {target d : DeviceDescriptor} {curr : Option DeviceDescriptor}
    {hw : Bool}
    (h : get_most_compatible_device registry target curr hw = some d) :
    target.compute_signature ≤ d.compute_signature := by
  have hcand : isCandidate hw target d = true → target.compute_signature ≤ d.compute_signature := by
    intro hc
    simp only [isCandidate, Bool.and_eq_true, decide_eq_true_eq] at hc
    exact hc.2
  cases curr with
  | none =>
    simp only [get_most_compatible_device] at h
    have hmem := pickBest_mem h
    exact hcand (List.of_mem_filter hmem)
  | some g =>
    simp only [get_most_compatible_device] at h
    split at h
    · next hg =>
      simp at h; subst h
      exact hcand hg.2
    · have hmem := pickBest_mem h
      exact hcand (List.of_mem_filter hmem)

theorem gmcd_none_of_no_candidate {registry : List DeviceDescriptor}
    {target : DeviceDescriptor} {curr : Option DeviceDescriptor} {hw : Bool}
    (h : registry.filter (isCandidate hw target) = []) :
    get_most_compatible_device registry target curr hw = none := by
  cases curr with
  | none =>
    simp only [get_most_compatible_device, h]
    rfl
  | some g =>
    simp only [get_most_compatible_device, h]
    split
    · next hg =>
      obtain ⟨hmem, hcand⟩ := hg
      have : g ∈ registry.filter (isCandidate hw target) :=
        List.mem_filter.mpr ⟨hmem, hcand⟩
      rw [h] at this
      simp at this
    · rfl

theorem kindCompatible_shift {hw : Bool} {a b c : DeviceKind}
    (h : kindCompatible hw a b = true) :
    kindCompatible hw b c = kindCompatible hw a c := by
  cases hw with
  | true => simp [kindCompatible]
  | false =>
    simp only [kindCompatible, Bool.or_false, decide_eq_true_eq] at h
    subst h
    rfl

theorem filter_cand_shift {registry : List DeviceDescriptor}
    {t m : DeviceDescriptor} {hw : Bool}
    (hc : isCandidate hw t m = true) :
    registry.filter (isCandidate hw m)
      = (registry.filter (isCandidate hw t)).filter
          (fun d => decide (m.compute_signature ≤ d.compute_signature)) := by
  rw [List.filter_filter]
  apply List.filter_congr
  intro d _
  simp only [isCandidate, Bool.and_eq_true, decide_eq_true_eq] at hc
  obtain ⟨hk, hs⟩ := hc
  simp only [isCandidate]
  rw [kindCompatible_shift hk]
  cases hkc : kindCompatible hw t.kind d.kind with
  | false => simp
  | true =>
    simp only [Bool.true_and]
    by_cases hmd : m.compute_signature ≤ d.compute_signature
    · have htd : t.compute_signature ≤ d.compute_signature := le_trans hs hmd
      simp [hmd, htd]
    · simp [hmd]

theorem gmcd_idem {registry : List DeviceDescriptor}
    {target m : DeviceDescriptor} {hw : Bool}
    (h : get_most_compatible_device registry target none hw = some m) :
    get_most_compatible_device registry m none hw = some m := by
  simp only [get_most_compatible_device] at h ⊢
  have hmem := pickBest_mem h
  have hcand : isCandidate hw target m = true := List.of_mem_filter hmem
  rw [filter_cand_shift hcand]
  exact pickBest_filter_ge h

/-! Decimal digit codec used by the spec-modelled device-descriptor string
format and by the model of `std::stoi`. -/

/-- Decimal digit list of `n`, most significant first; empty for zero.
Implemented with explicit fuel so that it reduces by evaluation. -/
def natDigitsAux : Nat → Nat → List Char
  | 0, _ => []
  | fuel + 1, n => if n = 0 then [] else natDigitsAux fuel (n / 10) ++ [Nat.digitChar (n % 10)]

def natDigits (n : Nat) : List Char := natDigitsAux n n

/-- Numeric value of a decimal digit character, as in `c - 48`. -/
def charVal (c : Char) : Nat := c.toNat - 48

/-- Value of a digit string read left to right. -/
def decDigits (cs : List Char) : Nat :=
  cs.foldl (fun a c => a * 10 + charVal c) 0

theorem natDigitsAux_zero (fuel : Nat) : natDigitsAux fuel 0 = [] := by
  cases fuel <;> simp [natDigitsAux]

theorem natDigitsAux_fuel : ∀ f1 f2 n, n ≤ f1 → n ≤ f2 →
    natDigitsAux f1 n = natDigitsAux f2 n := by
  intro f1
  induction f1 with
  | zero =>
    intro f2 n h1 _
    have : n = 0 := Nat.le_zero.mp h1
    subst this
    rw [natDigitsAux_zero, natDigitsAux_zero]
  | succ g ih =>
    intro f2 n h1 h2
    cases Nat.eq_zero_or_pos n with
    | inl hz => subst hz; rw [natDigitsAux_zero, natDigitsAux_zero]
    | inr hp =>
      cases f2 with
      | zero => omega
      | succ h =>
        have hne : n ≠ 0 := by omega
        simp only [natDigitsAux, hne, if_false]
        have hdiv : n / 10 ≤ g := by
          have := Nat.div_lt_self hp (by omega : 1 < 10)
          omega
        have hdiv2 : n / 10 ≤ h := by
          have := Nat.div_lt_self hp (by omega : 1 < 10)
          omega
        rw [ih h (n / 10) hdiv hdiv2]

theorem digitChar_val : ∀ r, r < 10 → charVal (Nat.digitChar r) = r := by decide

theorem digitChar_isDigit : ∀ r, r < 10 → (Nat.digitChar r).isDigit = true := by decide

theorem foldl_natDigitsAux : ∀ fuel n, n ≤ fuel → ∀ a,
    List.foldl (fun a c => a * 10 + charVal c) a (natDigitsAux fuel n)
      = a * 10 ^ (natDigitsAux fuel n).length + n := by
  intro fuel
  induction fuel with
  | zero =>
    intro n h a
    have : n = 0 := Nat.le_zero.mp h
    subst this
    simp [natDigitsAux]
  | succ g ih =>
    intro n h a
    by_cases hz : n = 0
    · subst hz; simp [natDigitsAux]
    · simp only [natDigitsAux, hz, if_false]
      have hdiv : n / 10 ≤ g := by
        have := Nat.div_lt_self (by omega : 0 < n) (by omega : 1 < 10)
        omega
      rw [List.foldl_append]
      rw [ih (n / 10) hdiv a]
      simp only [List.foldl]
      rw [digitChar_val (n % 10) (Nat.mod_lt n (by omega))]
      rw [List.length_append]
      simp only [List.length_cons, List.length_nil]
      have hmod : 10 * (n / 10) + n % 10 = n := Nat.div_add_mod n 10
      rw [pow_succ]
      ring_nf
      omega

theorem decDigits_natDigits (n : Nat) : decDigits (natDigits n) = n := by
  unfold decDigits natDigits
  rw [foldl_natDigitsAux n n le_rfl 0]
  simp

theorem natDigitsAux_all_digit : ∀ fuel n, ∀ c ∈ natDigitsAux fuel n,
    c.isDigit = true := by
  intro fuel
  induction fuel with
  | zero => intro n c hc; simp [natDigitsAux] at hc
  | succ g ih =>
    intro n c hc
    by_cases hz : n = 0
    · subst hz; simp [natDigitsAux] at hc
    · simp only [natDigitsAux, hz, if_false] at hc
      rcases List.mem_append.mp hc with hc | hc
      · exact ih (n / 10) c hc
      · simp at hc
        subst hc
        exact digitChar_isDigit (n % 10) (Nat.mod_lt n (by omega))

/-- Decimal digit characters of `n`, at least one digit. -/
def natChars (n : Nat) : List Char := if n = 0 then ['0'] else natDigits n

/-- Decimal characters of `i`, a leading minus sign for negative values. -/
def intChars (i : Int) : List Char :=
  if i < 0 then '-' :: natChars i.natAbs else natChars i.natAbs

def parseNatChars (cs : List Char) : Option Nat :=
  if cs.isEmpty then none
  else if cs.all Char.isDigit then some (decDigits cs) else none

def parseIntChars (cs : List Char) : Option Int :=
  match cs with
  | [] => none
  | c :: rest =>
    if c = '-' then (parseNatChars rest).map (fun n => -(n : Int))
    else (parseNatChars cs).map (fun n => (n : Int))

theorem natChars_all_digit (n : Nat) : ∀ c ∈ natChars n, c.isDigit = true := by
  intro c hc
  unfold natChars at hc
  split at hc
  · simp at hc; subst hc; decide
  · exact natDigitsAux_all_digit n n c hc

theorem natChars_ne_nil (n : Nat) : natChars n ≠ [] := by
  unfold natChars
  split
  · simp
  · next hz =>
    unfold natDigits
    cases n with
    | zero => exact absurd rfl hz
    | succ k =>
      simp only [natDigitsAux, Nat.succ_ne_zero, if_false]
      simp

theorem parseNatChars_natChars (n : Nat) : parseNatChars (natChars n) = some n := by
  unfold parseNatChars
  have hne : (natChars n).isEmpty = false := by
    cases hc : natChars n with
    | nil => exact absurd hc (natChars_ne_nil n)
    | cons c cs => rfl
  rw [hne]
  simp only [Bool.false_eq_true, if_false]
  have hall : (natChars n).all Char.isDigit = true :=
    List.all_eq_true.mpr (natChars_all_digit n)
  rw [hall]
  simp only [if_true]
  congr 1
  unfold natChars
  split
  · next hz => subst hz; decide
  · exact decDigits_natDigits n

theorem parseIntChars_intChars (i : Int) : parseIntChars (intChars i) = some i := by
  by_cases hi : i < 0
  · simp only [intChars, hi, if_true]
    have hstep : parseIntChars ('-' :: natChars i.natAbs)
        = (parseNatChars (natChars i.natAbs)).map (fun n => -(n : Int)) := rfl
    rw [hstep, parseNatChars_natChars]
    show some (-(i.natAbs : Int)) = some i
    congr 1
    omega
  · simp only [intChars, hi, if_false]
    cases hc : natChars i.natAbs with
    | nil => exact absurd hc (natChars_ne_nil i.natAbs)
    | cons c rest =>
      have hcd : c.isDigit = true := by
        apply natChars_all_digit i.natAbs
        rw [hc]; simp
      have hcne : ¬ c = '-' := by
        intro h
        subst h
        simp [Char.isDigit] at hcd
      have hstep : parseIntChars (c :: rest)
          = if c = '-' then (parseNatChars rest).map (fun n => -(n : Int))
            else (parseNatChars (c :: rest)).map (fun n => (n : Int)) := rfl
      rw [hstep, if_neg hcne, ← hc, parseNatChars_natChars]
      show some ((i.natAbs : Int)) = some i
      congr 1
      omega

/-! Comma-separated field splitter for the spec-modelled device string. -/

def splitComma : List Char → List (List Char)
  | [] => [[]]
  | c :: cs =>
    if c = ',' then [] :: splitComma cs
    else
      match splitComma cs with
      | [] => [[c]]
      | f :: fs => (c :: f) :: fs

theorem splitComma_no_comma {s : List Char} (h : ∀ c ∈ s, ¬ c = ',') :
    splitComma s = [s] := by
  induction s with
  | nil => rfl
  | cons c cs ih =>
    have hc : ¬ c = ',' := h c (by simp)
    have hrest : ∀ x ∈ cs, ¬ x = ',' := fun x hx => h x (by simp [hx])
    simp only [splitComma, hc, if_false]
    rw [ih hrest]

theorem splitComma_append {s : List Char} (rest : List Char)
    (h : ∀ c ∈ s, ¬ c = ',') :
    splitComma (s ++ ',' :: rest) = s :: splitComma rest := by
  induction s with
  | nil => simp [splitComma]
  | cons c cs ih =>
    have hc : ¬ c = ',' := h c (by simp)
    have hrest : ∀ x ∈ cs, ¬ x = ',' := fun x hx => h x (by simp [hx])
    simp only [List.cons_append, splitComma, hc, if_false, List.append_eq]
    rw [ih hrest]

def kindChars : DeviceKind → List Char
  | .GENERAL => ['G']
  | .FIXED_FUNCTION => ['F']

def parseKind (cs : List Char) : Option DeviceKind :=
  if cs = ['G'] then some .GENERAL
  else if cs = ['F'] then some .FIXED_FUNCTION
  else none

/-- Modelled from the spec: `serialize_device` (declared with the runtime,
implemented outside the provided sources); section 6 requires the descriptor
`(kind, logical_id, physical_id, compute_signature)` to be encoded as a
short reversible string record. -/
def serialize_device (d : DeviceDescriptor) : String :=
  String.mk (kindChars d.kind ++ [','] ++ intChars d.logical_id ++ [',']
    ++ intChars d.physical_id ++ [','] ++ natChars d.compute_signature)

/-- Modelled from the spec: `deserialize_device`, inverse of
`serialize_device`; a string that is not a four field record of the above
shape yields none. -/
def deserialize_device (s : String) : Option DeviceDescriptor :=
  match splitComma s.data with
  | [k, l, p, c] =>
    match parseKind k, parseIntChars l, parseIntChars p, parseNatChars c with
    | some kv, some lv, some pv, some cv =>
      some ⟨lv, pv, kv, cv⟩
    | _, _, _, _ => none
  | _ => none

theorem kindChars_no_comma (k : DeviceKind) : ∀ c ∈ kindChars k, ¬ c = ',' := by
  cases k <;> intro c hc <;> simp [kindChars] at hc <;> subst hc <;> decide

theorem natChars_no_comma (n : Nat) : ∀ c ∈ natChars n, ¬ c = ',' := by
  intro c hc h
  subst h
  have := natChars_all_digit n ',' hc
  simp [Char.isDigit] at this

theorem intChars_no_comma (i : Int) : ∀ c ∈ intChars i, ¬ c = ',' := by
  intro c hc
  unfold intChars at hc
  split at hc
  · rcases List.mem_cons.mp hc with hc | hc
    · subst hc; decide
    · exact natChars_no_comma i.natAbs c hc
  · exact natChars_no_comma i.natAbs c hc

theorem parseKind_kindChars (k : DeviceKind) : parseKind (kindChars k) = some k := by
  cases k <;> rfl

/-- The spec-modelled device codec is reversible, as section 6 demands. -/
theorem deserialize_serialize_device (d : DeviceDescriptor) :
    deserialize_device (serialize_device d) = some d := by
  unfold deserialize_device serialize_device
  have hdata : (String.mk (kindChars d.kind ++ [','] ++ intChars d.logical_id ++ [',']
      ++ intChars d.physical_id ++ [','] ++ natChars d.compute_signature)).data
      = kindChars d.kind ++ ',' :: (intChars d.logical_id ++ ',' :: (intChars d.physical_id
        ++ ',' :: natChars d.compute_signature)) := by
    simp
  rw [hdata]
  rw [splitComma_append _ (kindChars_no_comma d.kind)]
  rw [splitComma_append _ (intChars_no_comma d.logical_id)]
  rw [splitComma_append _ (intChars_no_comma d.physical_id)]
  rw [splitComma_no_comma (natChars_no_comma d.compute_signature)]
  simp only [parseKind_kindChars, parseIntChars_intChars, parseNatChars_natChars]

/-! Model of the binding name parsing of `TRTEngine.cpp`:
`bind_name.substr(bind_name.find("_") + 1)` followed by `std::stoi` and a
cast to `uint64_t`. -/

/-- Characters strictly after the first underscore; when no underscore
occurs, `std::string::find` returns `npos` and `npos + 1` wraps to `0`, so
the whole name is kept (handled by the caller below). -/
def afterUnderscore : List Char → List Char
  | [] => []
  | c :: cs => if c = '_' then cs else afterUnderscore cs

/-- The substring handed to `std::stoi`: after the first underscore when one
exists, the whole name otherwise. -/
def bindingIdxChars (cs : List Char) : List Char :=
  if cs.any (fun c => c = '_') then afterUnderscore cs else cs

/-- The `std::isspace` set in the default locale: space, horizontal tab,
line feed, vertical tab (0x0b), form feed (0x0c) and carriage return. -/
def isSpaceChar (c : Char) : Bool :=
  c = ' ' || c = '\t' || c = '\n' || c = '\x0b' || c = '\x0c' || c = '\r'

/-- Model of `std::stoi`: skip leading whitespace, an optional sign, then
the longest digit run; none models the thrown exception when no digit is
found or the value exceeds the `int` range. -/
def stoi (s : String) : Option Int :=
  let cs := s.data.dropWhile isSpaceChar
  match cs with
  | [] => none
  | c :: rest =>
    let sgn : Int := if c = '-' then -1 else 1
    let body := if c = '-' ∨ c = '+' then rest else cs
    let ds := body.takeWhile Char.isDigit
    if ds.isEmpty then none
    else
      let v : Int := sgn * (decDigits ds : Nat)
      if v < -2147483648 ∨ 2147483647 < v then none else some v

/-- The `static_cast<uint64_t>` applied to the parsed `int`: reduction
modulo two to the sixty-fourth. -/
def castUInt64 (i : Int) : Nat := (i % 18446744073709551616).toNat

/-- Ordinal extracted from one binding name, none when `std::stoi` throws. -/
def parseBindingIdx (name : String) : Option Nat :=
  (stoi (String.mk (bindingIdxChars name.data))).map castUInt64

/-! The engine data model and the three constructors of `TRTEngine.cpp`. -/

/-- One slot declared by a deserialized plan: `getBindingName` and
`bindingIsInput` of the underlying TensorRT engine. -/
structure Binding where
  name : String
  isInput : Bool
deriving DecidableEq, Repr

/-- The opaque deserialized plan, abstracted to what the runtime reads from
it: its ordered declared slots. -/
structure Plan where
  bindings : List Binding
deriving DecidableEq, Repr

/-- External TensorRT runtime services used by the constructors and by
re-serialization: plan byte deserialization (`deserializeCudaEngine`, null
on failure) and plan re-serialization (`serialize`), together with the
process device registry consulted by `get_most_compatible_device`. -/
structure RTEnv where
  registry : List DeviceDescriptor
  deserializeCudaEngine : String → Option Plan
  serializeEngine : Plan → String

/-- `TRTEngine` fields relevant to the claims: `name`, `device_info`,
`cuda_engine`, the two binding maps and `num_io`. -/
structure TRTEngine where
  name : String
  device_info : DeviceDescriptor
  cuda_engine : Plan
  in_binding_map : List (Nat × Nat)
  out_binding_map : List (Nat × Nat)
  num_io : Nat × Nat
deriving DecidableEq, Repr

/-- Construction failure: a `TRTORCH_CHECK` with its message, or the
uncaught `std::stoi` exception from a malformed binding name. -/
inductive EngineError where
  | check (msg : String)
  | stoiFailure
deriving DecidableEq, Repr

/-- `ABI_VERSION` of `runtime.h`. -/
def ABI_VERSION : String := "6"

/-- The `serialized_info.size() == ENGINE_IDX + 1` check message. -/
def sizeCheckMsg : String :=
  "Program to be deserialized targets an incompatible TRTorch ABI"

/-- The ABI tag mismatch message, naming the record tag and the runtime
tag. -/
def abiMismatchMsg (tag : String) : String :=
  "Program to be deserialized targets a different TRTorch ABI Version ("
    ++ tag ++ ") than the TRTorch Runtime ABI Version (" ++ ABI_VERSION ++ ")"

def noDeviceMsg : String :=
  "No compatible device was found for instantiating TensorRT engine"

def planDeserializeMsg : String :=
  "Unable to deserialize the TensorRT engine"

/-- `slugify` of `TRTEngine.cpp`: replace every dot by an underscore. -/
def slugify (s : String) : String :=
  String.mk (s.data.map (fun c => if c = '.' then '_' else c))

/-- The binding enumeration loop of the three argument constructor: walk the
plan slots in order keeping the running slot position `x`, parse each
ordinal, and classify by the input flag; any unparsable name aborts. -/
def buildBindings : List Binding → Nat →
    Option (List (Nat × Nat) × List (Nat × Nat) × Nat × Nat)
  | [], _ => some ([], [], 0, 0)
  | b :: bs, x =>
    match parseBindingIdx b.name with
    | none => none
    | some idx =>
      match buildBindings bs (x + 1) with
      | none => none
      | some (ins, outs, ni, no) =>
        if b.isInput then some ((x, idx) :: ins, outs, ni + 1, no)
        else some (ins, (x, idx) :: outs, ni, no + 1)

/-- The three argument constructor
`TRTEngine(std::string mod_name, std::string serialized_engine, CudaDevice
cuda_device)`: resolve a compatible device, slugify the name, deserialize
the plan bytes, then enumerate bindings. -/
def TRTEngine.construct3 (env : RTEnv) (mod_name serialized_engine : String)
    (cuda_device : DeviceDescriptor) : Except EngineError TRTEngine :=
  match get_most_compatible_device env.registry cuda_device none false with
  | none => .error (.check noDeviceMsg)
  | some device_info =>
    match env.deserializeCudaEngine serialized_engine with
    | none => .error (.check planDeserializeMsg)
    | some cuda_engine =>
      match buildBindings cuda_engine.bindings 0 with
      | none => .error .stoiFailure
      | some (ins, outs, ni, no) =>
        .ok { name := slugify mod_name, device_info := device_info,
              cuda_engine := cuda_engine, in_binding_map := ins,
              out_binding_map := outs, num_io := (ni, no) }

/-- The two argument constructor
`TRTEngine(std::string serialized_engine, CudaDevice cuda_device)`, which
delegates with the fixed name. -/
def TRTEngine.construct2 (env : RTEnv) (serialized_engine : String)
    (cuda_device : DeviceDescriptor) : Except EngineError TRTEngine :=
  TRTEngine.construct3 env "deserialized_trt" serialized_engine cuda_device

/-- The vector of strings constructor
`TRTEngine(std::vector<std::string> serialized_info)`: the record length
check, the ABI tag check, then delegation to the three argument
constructor on the name, device and engine fields. -/
def TRTEngine.constructFromSerialized (env : RTEnv)
    (serialized_info : List String) : Except EngineError TRTEngine :=
  if serialized_info.length = 4 then
    let tag := serialized_info.getD 0 ""
    if tag = ABI_VERSION then
      match deserialize_device (serialized_info.getD 2 "") with
      | none => .error (.check "Deserialized device info is malformed")
      | some cuda_device =>
        TRTEngine.construct3 env (serialized_info.getD 1 "")
          (serialized_info.getD 3 "") cuda_device
    else .error (.check (abiMismatchMsg tag))
  else .error (.check sizeCheckMsg)

/-- The `def_pickle` serialization lambda: the four record fields written at
`ABI_TARGET_IDX`, `NAME_IDX`, `DEVICE_IDX`, `ENGINE_IDX` in order. -/
def TRTEngine.encode (env : RTEnv) (e : TRTEngine) : List String :=
  [ABI_VERSION, e.name, serialize_device e.device_info,
    env.serializeEngine e.cuda_engine]

/-- `TRTEngine::operator=`: copies `rt`, `cuda_engine`, `device_info`,
`exec_ctx` and `num_io` onto the target and nothing else; the reference
counted runtime pointers are outside the model, the copied value fields are
`cuda_engine`, `device_info` and `num_io`. -/
def TRTEngine.assign (a b : TRTEngine) : TRTEngine :=
  { a with cuda_engine := b.cuda_engine, device_info := b.device_info,
           num_io := b.num_io }

theorem slugify_idem (s : String) : slugify (slugify s) = slugify s := by
  unfold slugify
  simp only [List.map_map]
  congr 1
  apply List.map_congr_left
  intro c _
  by_cases hc : c = '.'
  · subst hc; rfl
  · simp only [Function.comp_apply, hc, if_false]

theorem construct3_eq_ok {env : RTEnv} {n s : String} {d dev : DeviceDescriptor}
    {plan : Plan} {ins outs : List (Nat × Nat)} {ni no : Nat}
    (hg : get_most_compatible_device env.registry d none false = some dev)
    (hd : env.deserializeCudaEngine s = some plan)
    (hb : buildBindings plan.bindings 0 = some (ins, outs, ni, no)) :
    TRTEngine.construct3 env n s d
      = .ok { name := slugify n, device_info := dev, cuda_engine := plan,
              in_binding_map := ins, out_binding_map := outs,
              num_io := (ni, no) } := by
  unfold TRTEngine.construct3
  rw [hg]
  dsimp only
  rw [hd]
  dsimp only
  rw [hb]

theorem construct3_ok_inv {env : RTEnv} {n s : String} {d : DeviceDescriptor}
    {e : TRTEngine} (h : TRTEngine.construct3 env n s d = .ok e) :
    get_most_compatible_device env.registry d none false = some e.device_info
    ∧ env.deserializeCudaEngine s = some e.cuda_engine
    ∧ buildBindings e.cuda_engine.bindings 0
        = some (e.in_binding_map, e.out_binding_map, e.num_io.1, e.num_io.2)
    ∧ e.name = slugify n := by
  unfold TRTEngine.construct3 at h
  cases hg : get_most_compatible_device env.registry d none false with
  | none => rw [hg] at h; simp at h
  | some dev =>
    rw [hg] at h; dsimp at h
    cases hd : env.deserializeCudaEngine s with
    | none => rw [hd] at h; simp at h
    | some plan =>
      rw [hd] at h; dsimp at h
      cases hb : buildBindings plan.bindings 0 with
      | none => rw [hb] at h; simp at h
      | some q =>
        obtain ⟨ins, outs, ni, no⟩ := q
        rw [hb] at h; dsimp at h
        have he : e = TRTEngine.mk (slugify n) dev plan ins outs (ni, no) := by
          cases h; rfl
        subst he
        exact ⟨rfl, rfl, hb, rfl⟩

theorem buildBindings_fail {bs : List Binding} {b : Binding}
    (hmem : b ∈ bs) (hbad : parseBindingIdx b.name = none) :
    ∀ x, buildBindings bs x = none := by
  induction bs with
  | nil => simp at hmem
  | cons hd tl ih =>
    intro x
    rcases List.mem_cons.mp hmem with hb | hb
    · subst hb
      simp only [buildBindings, hbad]
    · simp only [buildBindings]
      cases hp : parseBindingIdx hd.name with
      | none => rfl
      | some idx =>
        dsimp
        rw [ih hb (x + 1)]

theorem afterUnderscore_append {p : List Char} (rest : List Char)
    (hp : ∀ c ∈ p, ¬ c = '_') :
    afterUnderscore (p ++ '_' :: rest) = rest := by
  induction p with
  | nil => simp [afterUnderscore]
  | cons c cs ih =>
    have hc : ¬ c = '_' := hp c (by simp)
    have hcs : ∀ x ∈ cs, ¬ x = '_' := fun x hx => hp x (by simp [hx])
    simp only [List.cons_append, afterUnderscore, hc, if_false]
    exact ih hcs

theorem bindingIdxChars_append {p : List Char} (rest : List Char)
    (hp : ∀ c ∈ p, ¬ c = '_') :
    bindingIdxChars (p ++ '_' :: rest) = rest := by
  unfold bindingIdxChars
  have hany : (p ++ '_' :: rest).any (fun c => c = '_') = true := by
    apply List.any_eq_true.mpr
    exact ⟨'_', by simp, by simp⟩
  rw [hany]
  simp only [if_true]
  exact afterUnderscore_append rest hp

theorem takeWhile_eq_self_of_all {p : Char → Bool} {l : List Char}
    (h : ∀ c ∈ l, p c = true) : l.takeWhile p = l := by
  induction l with
  | nil => rfl
  | cons c cs ih =>
    have hc : p c = true := h c (by simp)
    have hcs : ∀ x ∈ cs, p x = true := fun x hx => h x (by simp [hx])
    simp [List.takeWhile_cons, hc, ih hcs]

theorem digit_not_space {c : Char} (h : c.isDigit = true) : isSpaceChar c = false := by
  have h1 : ¬ c = ' ' := fun e => by subst e; exact absurd h (by decide)
  have h2 : ¬ c = '\t' := fun e => by subst e; exact absurd h (by decide)
  have h3 : ¬ c = '\n' := fun e => by subst e; exact absurd h (by decide)
  have h4 : ¬ c = '\x0b' := fun e => by subst e; exact absurd h (by decide)
  have h5 : ¬ c = '\x0c' := fun e => by subst e; exact absurd h (by decide)
  have h6 : ¬ c = '\r' := fun e => by subst e; exact absurd h (by decide)
  simp [isSpaceChar, h1, h2, h3, h4, h5, h6]

theorem digit_not_minus {c : Char} (h : c.isDigit = true) : ¬ c = '-' :=
  fun e => by subst e; exact absurd h (by decide)

theorem digit_not_plus {c : Char} (h : c.isDigit = true) : ¬ c = '+' :=
  fun e => by subst e; exact absurd h (by decide)

theorem stoi_digits {cs : List Char} (hne : cs ≠ [])
    (hall : ∀ c ∈ cs, c.isDigit = true) (hval : decDigits cs ≤ 2147483647) :
    stoi (String.mk cs) = some (decDigits cs) := by
  cases cs with
  | nil => exact absurd rfl hne
  | cons c rest =>
    have hc : c.isDigit = true := hall c (by simp)
    have hdrop : (c :: rest).dropWhile isSpaceChar = c :: rest := by
      simp [List.dropWhile_cons, digit_not_space hc]
    unfold stoi
    simp only [hdrop]
    have hsgn : ¬ (c = '-' ∨ c = '+') := by
      rintro (h | h)
      · exact digit_not_minus hc h
      · exact digit_not_plus hc h
    rw [if_neg (digit_not_minus hc), if_neg hsgn]
    rw [takeWhile_eq_self_of_all hall]
    simp only [List.isEmpty_cons, Bool.false_eq_true, if_false]
    have hge : (0 : Int) ≤ (decDigits (c :: rest) : Nat) := Int.natCast_nonneg _
    rw [if_neg (by omega)]
    congr 1
    ring

theorem decDigits_natChars (n : Nat) : decDigits (natChars n) = n := by
  unfold natChars
  split
  · next hz => subst hz; decide
  · exact decDigits_natDigits n

theorem castUInt64_small {n : Nat} (h : n < 18446744073709551616) :
    castUInt64 (n : Int) = n := by
  unfold castUInt64
  omega

/-- Parsing a well formed binding name `p_N` with an underscore free stem
and an in range decimal ordinal yields exactly that ordinal. -/
theorem parseBindingIdx_wellformed {p : List Char} {k : Nat}
    (hp : ∀ c ∈ p, ¬ c = '_') (hk : k ≤ 2147483647) :
    parseBindingIdx (String.mk (p ++ '_' :: natChars k)) = some k := by
  unfold parseBindingIdx
  have hchars : (String.mk (p ++ '_' :: natChars k)).data = p ++ '_' :: natChars k := rfl
  rw [hchars, bindingIdxChars_append _ hp]
  have hval : decDigits (natChars k) ≤ 2147483647 := by
    rw [decDigits_natChars]; exact hk
  rw [stoi_digits (natChars_ne_nil k) (natChars_all_digit k) hval]
  rw [decDigits_natChars]
  show some (castUInt64 ((k : Nat) : Int)) = some k
  rw [castUInt64_small (by omega)]

/-! Concrete fixtures: a registry with one general purpose device of
compute signature 75, and plans served by a small TensorRT model
environment. -/

def devG : DeviceDescriptor := ⟨0, 0, .GENERAL, 75⟩

def devLow : DeviceDescriptor := ⟨1, 1, .GENERAL, 50⟩

/-- Plan with four inputs `input_0..input_3` and two outputs
`output_0..output_1`. -/
def plan6 : Plan := ⟨[⟨"input_0", true⟩, ⟨"input_1", true⟩, ⟨"input_2", true⟩,
  ⟨"input_3", true⟩, ⟨"output_0", false⟩, ⟨"output_1", false⟩]⟩

/-- Plan whose input slot name carries two underscores: it ends in a
perfectly good ordinal `_0`, but the runtime splits at the first
underscore. -/
def planTwoUnderscores : Plan := ⟨[⟨"my_input_0", true⟩, ⟨"output_0", false⟩]⟩

/-- Plan whose input slot name has digits after the first underscore
followed by junk: it does not end in an ordinal, yet `std::stoi` parses the
digit run. -/
def planDigitJunk : Plan := ⟨[⟨"in_2x", true⟩]⟩

def plan1 : Plan := ⟨[⟨"input_0", true⟩, ⟨"output_0", false⟩]⟩

def env6 : RTEnv :=
  { registry := [devG],
    deserializeCudaEngine := fun s =>
      if s = "P6" then some plan6
      else if s = "PB" then some planTwoUnderscores
      else if s = "PJ" then some planDigitJunk
      else none,
    serializeEngine := fun _ => "P6" }

/-- Environment whose plan deserialization always fails, for the corrupt
byte scenarios. -/
def envFail : RTEnv :=
  { registry := [devG],
    deserializeCudaEngine := fun _ => none,
    serializeEngine := fun _ => "" }

/-- Decoding a well formed four field record with the runtime ABI tag
delegates to the three argument constructor on the name, plan bytes and
decoded device, in that field order. -/
theorem decode_abi_ok (env : RTEnv) (n d e : String) (dev : DeviceDescriptor)
    (hdev : deserialize_device d = some dev) :
    TRTEngine.constructFromSerialized env [ABI_VERSION, n, d, e]
      = TRTEngine.construct3 env n e dev := by
  unfold TRTEngine.constructFromSerialized
  simp [hdev]

/-- Fixture engines with distinct names and binding maps for the
assignment operator scenario. -/
def engA : TRTEngine :=
  TRTEngine.mk "a" devG plan1 [(0, 0)] [(1, 0)] (1, 1)

def engB : TRTEngine :=
  TRTEngine.mk "b" devG plan6 [(0, 0), (1, 1), (2, 2), (3, 3)] [(4, 0), (5, 1)] (4, 2)

/-! Claims. -/

/-- C1 (amended): for a serialized record with the expected four fields
whose ABI tag differs from the runtime tag, decoding fails with the version
incompatibility error whose message contains both the record tag and the
runtime tag, and the outcome depends only on the tag (the other fields are
arbitrary here); a record of any other length instead fails with a generic
length message that does not name the tags. -/
theorem C1_abi_gate (env : RTEnv) (t n d e : String) (h : ¬ t = ABI_VERSION) :
    TRTEngine.constructFromSerialized env [t, n, d, e]
        = .error (.check (abiMismatchMsg t))
    ∧ t.data <:+: (abiMismatchMsg t).data
    ∧ ABI_VERSION.data <:+: (abiMismatchMsg t).data := by
  refine ⟨?_, ?_, ?_⟩
  · unfold TRTEngine.constructFromSerialized
    simp [h]
  · unfold abiMismatchMsg
    refine ⟨"Program to be deserialized targets a different TRTorch ABI Version (".data,
      (") than the TRTorch Runtime ABI Version (" ++ ABI_VERSION ++ ")").data, ?_⟩
    simp [String.data_append]
  · unfold abiMismatchMsg
    refine ⟨("Program to be deserialized targets a different TRTorch ABI Version ("
        ++ t ++ ") than the TRTorch Runtime ABI Version (").data, ")".data, ?_⟩
    simp [String.data_append]

theorem C1_abi_gate_witness :
    TRTEngine.constructFromSerialized env6 ["5", "n", "d", "e"]
        = .error (.check (abiMismatchMsg "5"))
    ∧ "5".data <:+: (abiMismatchMsg "5").data
    ∧ ABI_VERSION.data <:+: (abiMismatchMsg "5").data :=
  C1_abi_gate env6 "5" "n" "d" "e" (by decide)

/-- C1 as stated is refuted: the one field record ["bogus"] carries an ABI
tag differing from the runtime tag, yet decoding fails with the generic
length message, which does not name the record tag. -/
theorem C1_counterexample :
    ¬ "bogus" = ABI_VERSION
    ∧ TRTEngine.constructFromSerialized env6 ["bogus"]
        = .error (.check sizeCheckMsg)
    ∧ ¬ ("bogus".data <:+: sizeCheckMsg.data) :=
  ⟨by decide, rfl, by decide⟩

/-- C2 (amended): the record layout of the current ABI has exactly four
fields [abi_version, name, device_descriptor, plan_bytes] in that order:
decoding rejects any record whose length is not four with the fixed length
message, and on a four field record with the runtime tag it reads field one
as the name, field two as the device and field three as the plan bytes. -/
theorem C2_record_layout (env : RTEnv) :
    (∀ info : List String, ¬ info.length = 4 →
      TRTEngine.constructFromSerialized env info = .error (.check sizeCheckMsg))
    ∧ (∀ n d e dev, deserialize_device d = some dev →
        TRTEngine.constructFromSerialized env [ABI_VERSION, n, d, e]
          = TRTEngine.construct3 env n e dev) := by
  constructor
  · intro info h
    unfold TRTEngine.constructFromSerialized
    rw [if_neg h]
  · intro n d e dev hdev
    exact decode_abi_ok env n d e dev hdev

theorem C2_record_layout_witness :
    TRTEngine.constructFromSerialized env6 ["6", "x"]
        = .error (.check sizeCheckMsg)
    ∧ TRTEngine.constructFromSerialized env6
        [ABI_VERSION, "n", serialize_device devG, "P6"]
        = TRTEngine.construct3 env6 "n" "P6" devG :=
  ⟨(C2_record_layout env6).1 ["6", "x"] (by decide),
   (C2_record_layout env6).2 "n" (serialize_device devG) "P6" devG (by rfl)⟩

/-- C2 as stated is refuted: the fixed field count is four, not nine; this
four field record, whose length differs from nine, is decoded successfully
rather than rejected. -/
theorem C2_counterexample :
    ¬ ([ABI_VERSION, "n", serialize_device devG, "P6"] : List String).length = 9
    ∧ TRTEngine.constructFromSerialized env6
        [ABI_VERSION, "n", serialize_device devG, "P6"]
        = .ok (TRTEngine.mk "n" devG plan6
            [(0, 0), (1, 1), (2, 2), (3, 3)] [(4, 0), (5, 1)] (4, 2)) :=
  ⟨by decide, by rfl⟩

/-- C3 (amended): a slot whose name is an underscore free stem, one
underscore and the decimal ordinal N (in `int` range) is mapped to exactly
N; in particular the plan with inputs input_0..input_3 and outputs
output_0..output_1 yields num_io = (4, 2) and the identity ordinal maps.
Names with a second underscore before the ordinal are not handled (see the
counterexample), because the extraction splits at the first underscore. -/
theorem C3_binding_ordinals (p : List Char) (k : Nat)
    (hp : ∀ c ∈ p, ¬ c = '_') (hk : k ≤ 2147483647) :
    parseBindingIdx (String.mk (p ++ '_' :: natChars k)) = some k
    ∧ ∀ e, TRTEngine.construct3 env6 "mod" "P6" devG = .ok e →
        e.num_io = (4, 2)
        ∧ e.in_binding_map = [(0, 0), (1, 1), (2, 2), (3, 3)]
        ∧ e.out_binding_map = [(4, 0), (5, 1)] := by
  refine ⟨parseBindingIdx_wellformed hp hk, ?_⟩
  intro e he
  have hc : TRTEngine.construct3 env6 "mod" "P6" devG
      = .ok (TRTEngine.mk "mod" devG plan6
          [(0, 0), (1, 1), (2, 2), (3, 3)] [(4, 0), (5, 1)] (4, 2)) := rfl
  rw [hc] at he
  cases he
  exact ⟨rfl, rfl, rfl⟩

theorem C3_binding_ordinals_witness :
    parseBindingIdx (String.mk ("input".data ++ '_' :: natChars 7)) = some 7
    ∧ ((TRTEngine.mk "mod" devG plan6
          [(0, 0), (1, 1), (2, 2), (3, 3)] [(4, 0), (5, 1)] (4, 2)).num_io = (4, 2)
        ∧ (TRTEngine.mk "mod" devG plan6
          [(0, 0), (1, 1), (2, 2), (3, 3)] [(4, 0), (5, 1)] (4, 2)).in_binding_map
            = [(0, 0), (1, 1), (2, 2), (3, 3)]
        ∧ (TRTEngine.mk "mod" devG plan6
          [(0, 0), (1, 1), (2, 2), (3, 3)] [(4, 0), (5, 1)] (4, 2)).out_binding_map
            = [(4, 0), (5, 1)]) :=
  ⟨(C3_binding_ordinals "input".data 7 (by decide) (by decide)).1,
   (C3_binding_ordinals "input".data 7 (by decide) (by decide)).2
     (TRTEngine.mk "mod" devG plan6
        [(0, 0), (1, 1), (2, 2), (3, 3)] [(4, 0), (5, 1)] (4, 2)) (by rfl)⟩

/-- C3 as stated is refuted: in this plan every slot name ends in an
ordinal (`my_input_0` ends in 0; the input set and the output set are each
densely numbered from zero), yet construction aborts, because the runtime
splits at the first underscore and hands "input_0" to `std::stoi`. -/
theorem C3_counterexample :
    planTwoUnderscores.bindings.map Binding.name = ["my_input_0", "output_0"]
    ∧ TRTEngine.construct3 env6 "mod" "PB" devG = .error .stoiFailure :=
  ⟨rfl, rfl⟩

/-- C4 (amended): construction fails for a plan declaring a slot whose name
fails the runtime parse, that is, whose substring after the first underscore
(the whole name when it has no underscore) has no leading in range integer;
a name whose trailing characters are not an ordinal but whose first
underscore is followed by digits is accepted instead (see the
counterexample). -/
theorem C4_unparsable_binding_fails (env : RTEnv) (n s : String)
    (d : DeviceDescriptor) (plan : Plan) (b : Binding)
    (hd : env.deserializeCudaEngine s = some plan)
    (hmem : b ∈ plan.bindings) (hbad : parseBindingIdx b.name = none) :
    ∀ e, ¬ TRTEngine.construct3 env n s d = .ok e := by
  intro e he
  obtain ⟨hg, hd2, hb, hn⟩ := construct3_ok_inv he
  rw [hd] at hd2
  have hplan : plan = e.cuda_engine := by cases hd2; rfl
  subst hplan
  rw [buildBindings_fail hmem hbad 0] at hb
  cases hb

theorem C4_unparsable_binding_fails_witness :
    ¬ TRTEngine.construct3 env6 "x" "PB" devG
        = .ok (TRTEngine.mk "x" devG planTwoUnderscores [] [] (0, 0)) :=
  C4_unparsable_binding_fails env6 "x" "PB" devG planTwoUnderscores
    ⟨"my_input_0", true⟩ (by rfl) (by decide) (by rfl)
    (TRTEngine.mk "x" devG planTwoUnderscores [] [] (0, 0))

/-- C4 as stated is refuted: slot name "in_2x" has no parsable trailing
numeric ordinal (its tail after the last underscore is "2x"), yet
construction succeeds and maps the slot to 2, the digit run after the first
underscore. -/
theorem C4_counterexample :
    planDigitJunk.bindings.map Binding.name = ["in_2x"]
    ∧ TRTEngine.construct3 env6 "mod" "PJ" devG
        = .ok (TRTEngine.mk "mod" devG planDigitJunk [(0, 2)] [] (1, 0)) :=
  ⟨rfl, rfl⟩

/-- C5: for every constructed engine, re-serializing through the pickle
lambda and decoding through the vector of strings constructor reconstructs
the engine exactly, in particular with identical device descriptor, name
and binding maps, provided the external TensorRT runtime reproduces the
plan from its own serialization. -/
theorem C5_roundtrip (env : RTEnv) (n s : String) (d : DeviceDescriptor)
    (e : TRTEngine)
    (hc : TRTEngine.construct3 env n s d = .ok e)
    (hrt : env.deserializeCudaEngine (env.serializeEngine e.cuda_engine)
        = some e.cuda_engine) :
    TRTEngine.constructFromSerialized env (TRTEngine.encode env e) = .ok e := by
  obtain ⟨hg, hd, hb, hn⟩ := construct3_ok_inv hc
  have hg2 := gmcd_idem hg
  have henc : TRTEngine.encode env e
      = [ABI_VERSION, e.name, serialize_device e.device_info,
          env.serializeEngine e.cuda_engine] := rfl
  rw [henc,
    decode_abi_ok env e.name (serialize_device e.device_info)
      (env.serializeEngine e.cuda_engine) e.device_info
      (deserialize_serialize_device e.device_info),
    construct3_eq_ok hg2 hrt hb]
  have hslug : slugify e.name = e.name := by rw [hn, slugify_idem, ← hn]
  cases e with
  | mk nm di ce ib ob ni =>
    simp only at hslug
    simp [hslug]

theorem C5_roundtrip_witness :
    TRTEngine.constructFromSerialized env6
        (TRTEngine.encode env6 (TRTEngine.mk "w_mod" devG plan6
          [(0, 0), (1, 1), (2, 2), (3, 3)] [(4, 0), (5, 1)] (4, 2)))
      = .ok (TRTEngine.mk "w_mod" devG plan6
          [(0, 0), (1, 1), (2, 2), (3, 3)] [(4, 0), (5, 1)] (4, 2)) :=
  C5_roundtrip env6 "w.mod" "P6" devG
    (TRTEngine.mk "w_mod" devG plan6
      [(0, 0), (1, 1), (2, 2), (3, 3)] [(4, 0), (5, 1)] (4, 2))
    (by rfl) (by rfl)

/-- C6: the claim is that assignment copies the binding maps and the name
and shares the plan; the operator in the source copies `cuda_engine`,
`device_info` and `num_io` but leaves the target binding maps and name
untouched, so the assigned engine keeps stale maps inconsistent with its
copied `num_io`. -/
theorem C6_assign_does_not_copy_bindings :
    (TRTEngine.assign engA engB).cuda_engine = engB.cuda_engine
    ∧ (TRTEngine.assign engA engB).device_info = engB.device_info
    ∧ (TRTEngine.assign engA engB).num_io = engB.num_io
    ∧ (TRTEngine.assign engA engB).in_binding_map = engA.in_binding_map
    ∧ (TRTEngine.assign engA engB).out_binding_map = engA.out_binding_map
    ∧ (TRTEngine.assign engA engB).name = engA.name
    ∧ ¬ engA.in_binding_map = engB.in_binding_map
    ∧ ¬ engA.out_binding_map = engB.out_binding_map
    ∧ ¬ engA.name = engB.name :=
  ⟨rfl, rfl, rfl, rfl, rfl, rfl, by decide, by decide, by decide⟩

/-- C7: the resolver never downgrades: a returned descriptor always has a
compute signature at least the target signature, and when no registered
candidate is kind compatible (with the relaxation only when
hardware_compatible) with a signature at least the target, it returns
none. -/
theorem C7_no_downgrade (registry : List DeviceDescriptor)
    (target : DeviceDescriptor) (curr : Option DeviceDescriptor) (hw : Bool) :
    (∀ d, get_most_compatible_device registry target curr hw = some d →
      target.compute_signature ≤ d.compute_signature)
    ∧ (registry.filter (isCandidate hw target) = [] →
      get_most_compatible_device registry target curr hw = none) :=
  ⟨fun _ h => gmcd_signature_ge h, fun h => gmcd_none_of_no_candidate h⟩

theorem C7_no_downgrade_witness :
    devG.compute_signature ≤ devG.compute_signature
    ∧ get_most_compatible_device [devLow] devG none false = none :=
  ⟨(C7_no_downgrade [devG] devG none false).1 devG (by rfl),
   (C7_no_downgrade [devLow] devG none false).2 (by decide)⟩

/-- C8 (amended): when plan deserialization returns null, construction
aborts with the fatal check error carrying the fixed message, which does
not depend on (and does not contain) the engine name. -/
theorem C8_plan_deserialization_failure (env : RTEnv) (n s : String)
    (d dev : DeviceDescriptor)
    (hg : get_most_compatible_device env.registry d none false = some dev)
    (hd : env.deserializeCudaEngine s = none) :
    TRTEngine.construct3 env n s d = .error (.check planDeserializeMsg) := by
  unfold TRTEngine.construct3
  rw [hg]
  dsimp only
  rw [hd]

theorem C8_plan_deserialization_failure_witness :
    TRTEngine.construct3 envFail "mymod" "bytes" devG
      = .error (.check planDeserializeMsg) :=
  C8_plan_deserialization_failure envFail "mymod" "bytes" devG devG
    (by rfl) (by rfl)

/-- C8 as stated is refuted: the failure report is the fixed message
"Unable to deserialize the TensorRT engine", which does not contain the
engine name (here "mymod", unchanged by slugify). -/
theorem C8_counterexample :
    TRTEngine.construct3 envFail "mymod" "more_bytes" devG
      = .error (.check planDeserializeMsg)
    ∧ slugify "mymod" = "mymod"
    ∧ ¬ ("mymod".data <:+: planDeserializeMsg.data) :=
  ⟨rfl, rfl, by decide⟩

/-- C9: slugify keeps the length and maps every dot to an underscore,
leaving every other character unchanged, and a constructed engine stores
the slugified module name. -/
theorem C9_slugify_spec (s : String) :
    (slugify s).length = s.length
    ∧ (∀ (i : Nat) (c : Char), s.data[i]? = some c →
        (slugify s).data[i]? = some (if c = '.' then '_' else c))
    ∧ (∀ env n b d e, TRTEngine.construct3 env n b d = .ok e →
        e.name = slugify n) := by
  refine ⟨?_, ?_, ?_⟩
  · show (s.data.map (fun c => if c = '.' then '_' else c)).length = s.data.length
    rw [List.length_map]
  · intro i c hc
    have hdata : (slugify s).data = s.data.map (fun c => if c = '.' then '_' else c) := rfl
    rw [hdata, List.getElem?_map, hc]
    rfl
  · intro env n b d e he
    exact (construct3_ok_inv he).2.2.2

theorem C9_slugify_spec_witness :
    (slugify "a.b").length = ("a.b" : String).length
    ∧ (slugify "a.b").data[1]? = some (if '.' = '.' then '_' else '.')
    ∧ (TRTEngine.mk "mod_a" devG plan6
        [(0, 0), (1, 1), (2, 2), (3, 3)] [(4, 0), (5, 1)] (4, 2)).name
        = slugify "mod.a" :=
  ⟨(C9_slugify_spec "a.b").1,
   (C9_slugify_spec "a.b").2.1 1 '.' (by rfl),
   (C9_slugify_spec "a.b").2.2 env6 "mod.a" "P6" devG
     (TRTEngine.mk "mod_a" devG plan6
        [(0, 0), (1, 1), (2, 2), (3, 3)] [(4, 0), (5, 1)] (4, 2)) (by rfl)⟩

/-- C10: every engine built by the two argument constructor carries the
fixed default name, and re-serialization writes that name into field one of
the record. -/
theorem C10_default_name (env : RTEnv) (s : String) (d : DeviceDescriptor)
    (e : TRTEngine) (h : TRTEngine.construct2 env s d = .ok e) :
    e.name = "deserialized_trt"
    ∧ (TRTEngine.encode env e).getD 1 "" = "deserialized_trt" := by
  have h3 : TRTEngine.construct3 env "deserialized_trt" s d = .ok e := h
  have hn : e.name = slugify "deserialized_trt" := (construct3_ok_inv h3).2.2.2
  have hslug : slugify "deserialized_trt" = "deserialized_trt" := rfl
  have hname : e.name = "deserialized_trt" := hn.trans hslug
  exact ⟨hname, hname⟩

theorem C10_default_name_witness :
    (TRTEngine.mk "deserialized_trt" devG plan6
        [(0, 0), (1, 1), (2, 2), (3, 3)] [(4, 0), (5, 1)] (4, 2)).name
      = "deserialized_trt"
    ∧ (TRTEngine.encode env6 (TRTEngine.mk "deserialized_trt" devG plan6
        [(0, 0), (1, 1), (2, 2), (3, 3)] [(4, 0), (5, 1)] (4, 2))).getD 1 ""
      = "deserialized_trt" :=
  C10_default_name env6 "P6" devG
    (TRTEngine.mk "deserialized_trt" devG plan6
      [(0, 0), (1, 1), (2, 2), (3, 3)] [(4, 0), (5, 1)] (4, 2)) (by rfl)

end TRTRuntime
